import Mathlib

/-!
Shallow embedding of the selection / cost-aggregation engine of the
`ai_diff_review` VS Code extension.

Sources embedded here:
* `src/utils/glob.ts` (current minimatch-based version, also kept as
  `src/unnamed/part_005`): `isMatch`.
* `src/utils/tokenEstimator.ts` (the `TokenEstimator` class and
  `formatTokens`, found in the second section of `src/utils/glob.ts`):
  `estimateTokens`, `estimateFromFile`.
* `src/providers/treeViewProvider.ts`: `TreeViewProvider` (the change-set
  tree): `loadFiles`, `getCheckedFiles`, `buildFileTree`,
  `addFileToFolder`, `updateFolderCheckboxState`, `handleCheckboxChanges`,
  `updateFolderChildren`.
* `src/providers/configViewProvider.ts`, third section (the current
  `ProjectTreeProvider`, the project tree): `loadConfig`, `walkDirectory`,
  `getChildren`, `computeFolderMetadata`, `handleCheckboxChanges`,
  `setFileCheckbox`, `getCheckedFiles`, `getSelectedTokenTotal`.

Modelling conventions:
* TypeScript `TreeItemCheckboxState` (Checked / Unchecked) is `Bool`
  (`true` = Checked).
* The change-set tree's `Map<string, CheckboxState>` (default Unchecked on
  a missing key) is a total function `String → Bool`.
* The project tree's `Set<string>` of checked paths is a duplicate-free
  `List String` in insertion order (`Array.from` iterates in insertion
  order).
* Asynchronous I/O is replaced by explicit data: a directory tree is an
  `FsEntry`, where an unreadable directory (a `readdir` call that throws
  and is caught by the source's `try/catch`) carries `readable = false`.
  All embedded functions are total, which is exactly the "errors degrade
  to empty results, never propagate" behaviour of the source.
* The `minimatch` library (called with `matchBase: true, dot: true`) is
  modelled by `minimatchB`, a glob matcher over `/`-separated segments
  supporting literal characters, `?`, `*` and the `**` segment; with
  `dot: true` a `*` may match leading dots, and with `matchBase: true` a
  pattern without `/` is matched against the path's basename.
-/

namespace AiReview

/-! ## PatternFilter: `isMatch` from `src/utils/glob.ts` (minimatch version) -/

/-- Characterwise model of `String.prototype.trim`. -/
def trimChars (cs : List Char) : List Char :=
  ((cs.dropWhile Char.isWhitespace).reverse.dropWhile Char.isWhitespace).reverse

/-- `rawPattern.trim()` on strings. -/
def strTrim (s : String) : String := String.mk (trimChars s.data)

/-- Split a character list on a separator character; like
`String.prototype.split`, always returns at least one (possibly empty)
chunk. -/
def splitOnChar (c : Char) : List Char → List (List Char)
  | [] => [[]]
  | x :: xs =>
    let r := splitOnChar c xs
    if x = c then [] :: r
    else
      match r with
      | [] => [[x]]
      | h :: t => (x :: h) :: t

/-- `s.split('/')` as strings. -/
def splitSlash (s : String) : List String :=
  (splitOnChar '/' s.data).map (fun cs => String.mk cs)

/-- `filePath.replace(/\\/g, '/')`. -/
def normalizeSlashes (s : String) : String :=
  String.mk (s.data.map (fun c => if c = '\\' then '/' else c))

/-- Glob match of one pattern segment against one path segment
(`*` matches any run of characters, `?` any single character; with
`dot: true` there is no special casing of leading dots).  The fuel is
`p.length + s.length + 1`, which every recursive call strictly respects,
so the `0` case is never reached on the initial fuel. -/
def matchSegAux : Nat → List Char → List Char → Bool
  | 0, _, _ => false
  | _ + 1, [], [] => true
  | _ + 1, [], _ :: _ => false
  | fuel + 1, p :: ps, s =>
    if p = '*' then
      matchSegAux fuel ps s ||
        (match s with
         | [] => false
         | _ :: s2 => matchSegAux fuel (p :: ps) s2)
    else
      match s with
      | [] => false
      | c :: s2 => (p = '?' || p = c) && matchSegAux fuel ps s2

/-- Segment-level glob match with sufficient fuel. -/
def matchSeg (p s : List Char) : Bool :=
  matchSegAux (p.length + s.length + 1) p s

/-- Match a `/`-split glob pattern against a `/`-split path; a `**`
pattern segment matches any (possibly empty) run of path segments. -/
def matchSegsAux : Nat → List (List Char) → List (List Char) → Bool
  | 0, _, _ => false
  | _ + 1, [], [] => true
  | _ + 1, [], _ :: _ => false
  | fuel + 1, p :: ps, ss =>
    if p = ['*', '*'] then
      (match ss with
       | [] => matchSegsAux fuel ps []
       | _ :: ss2 => matchSegsAux fuel ps ss || matchSegsAux fuel (p :: ps) ss2)
    else
      match ss with
      | [] => false
      | s :: ss2 => matchSeg p s && matchSegsAux fuel ps ss2

/-- Path-level glob match with sufficient fuel. -/
def matchSegs (ps ss : List (List Char)) : Bool :=
  matchSegsAux (ps.length + ss.length + 1) ps ss

/-- Model of `minimatch(path, pattern, { matchBase: true, dot: true })`:
a pattern containing no `/` is matched against the basename (the last
`/`-separated segment) of the path, any other pattern is matched
segmentwise against the whole path. -/
def minimatchB (pth pat : String) : Bool :=
  let patSegs := splitOnChar '/' pat.data
  let pathSegs := splitOnChar '/' pth.data
  match patSegs with
  | [single] =>
    match pathSegs.getLast? with
    | some base => matchSeg single base
    | none => false
  | _ => matchSegs patSegs pathSegs

/-- `isMatch` from `src/utils/glob.ts`: normalize backslashes, then some
pattern matches if, after trimming, it is nonempty and either minimatch
accepts it against the full normalized path or it equals one of the
path's `/`-separated segments. -/
def isMatch (filePath : String) (patterns : List String) : Bool :=
  let normalizedPath := normalizeSlashes filePath
  patterns.any (fun rawPattern =>
    let pattern := strTrim rawPattern
    if pattern = "" then false
    else if minimatchB normalizedPath pattern then true
    else (splitSlash normalizedPath).contains pattern)

/-! ## CostEstimator: `TokenEstimator` from `src/utils/tokenEstimator.ts` -/

/-- `estimateTokens(text)`: `0` for empty text, else
`Math.max(1, Math.ceil(text.length / 4))`; over `Nat`,
`Math.ceil(n / 4) = (n + 3) / 4`. -/
def estimateTokens (text : String) : Nat :=
  if text = "" then 0 else max 1 ((text.length + 3) / 4)

/-- The memoization cache `Map<string, number>`, total with `Option`. -/
def EstCache := String → Option Nat

/-- `estimateFromFile(fsPath, fallback?)`.  The two suspension points are
made explicit data: `readRes` is the result of `fs.readFile` (`none` when
it throws), `fallback` is `none` when no fallback source was supplied,
`some none` when the supplied fallback itself throws, and `some (some c)`
when it returns `c`.  Returns the estimate and the updated cache. -/
def estimateFromFile (cache : EstCache) (fsPath : String)
    (readRes : Option String) (fallback : Option (Option String)) :
    Nat × EstCache :=
  match cache fsPath with
  | some v => (v, cache)
  | none =>
    let content :=
      match readRes with
      | some c => c
      | none =>
        match fallback with
        | some (some c) => c
        | some none => ""
        | none => ""
    let tokens := estimateTokens content
    (tokens, fun q => if q = fsPath then some tokens else cache q)

/-! ## Filesystem model and `walkDirectory` (project tree) -/

mutual
/-- A filesystem entry as seen by `fs.promises.readdir(..., { withFileTypes: true })`.
A directory with `readable = false` stands for a directory whose
`readdir` call throws (permission error, deleted concurrently); the
source wraps every `readdir` in `try/catch`, so such a directory
contributes an empty listing. -/
inductive FsEntry where
  | file (name : String) (content : String) : FsEntry
  | dir (name : String) (readable : Bool) (entries : FsList) : FsEntry
  deriving DecidableEq

/-- A directory listing, in the order `readdir` returns it. -/
inductive FsList where
  | nil : FsList
  | cons (head : FsEntry) (tail : FsList) : FsList
  deriving DecidableEq
end

/-- The `dirent.name` of an entry. -/
def FsEntry.name : FsEntry → String
  | .file n _ => n
  | .dir n _ _ => n

/-- Concatenation of directory listings. -/
def fsAppend : FsList → FsList → FsList
  | .nil, ys => ys
  | .cons x xs, ys => .cons x (fsAppend xs ys)

/-- Workspace-relative path of a child: `path.relative(workspaceRoot, fullPath)`
with `/` separators; `pre` is the parent directory's relative path
(`""` for the workspace root). -/
def joinRel (pre name : String) : String :=
  if pre = "" then name else pre ++ "/" ++ name

mutual
/-- `ProjectTreeProvider.walkDirectory(dir)` (configViewProvider.ts):
list a directory's workspace-relative file paths recursively, skipping
every entry whose relative path matches the active ignore patterns; an
unreadable directory yields `[]` (the `catch` branch). `pre` is the
relative path of the directory being walked. -/
def walkDir (patterns : List String) (pre : String) (e : FsEntry) : List String :=
  match e with
  | .file _ _ => []
  | .dir _ r es => if r then walkEntries patterns pre es else []

/-- The loop body of `walkDirectory` over a directory listing. -/
def walkEntries (patterns : List String) (pre : String) (l : FsList) : List String :=
  match l with
  | .nil => []
  | .cons e es =>
    (if isMatch (joinRel pre e.name) patterns then []
     else
       match e with
       | .file n _ => [joinRel pre n]
       | .dir _ _ _ => walkDir patterns (joinRel pre e.name) e)
    ++ walkEntries patterns pre es
end

/-! ## Change-set tree (`TreeViewProvider`, treeViewProvider.ts) -/

/-- `ChangedFile` from `src/types.ts`. -/
structure ChangedFile where
  path : String
  status : String
  deriving DecidableEq

/-- State of the change-set tree that the embedded operations touch:
the filtered changed-file list and the `checkedFiles`
`Map<string, TreeItemCheckboxState>` (a missing key reads as Unchecked,
so the map is a total `String → Bool`). -/
structure TVState where
  changedFiles : List ChangedFile
  checkedFiles : String → Bool

/-- `map.set(p, state)` on the checked-files map. -/
def setMap (m : String → Bool) (p : String) (b : Bool) : String → Bool :=
  fun q => if q = p then b else m q

/-- `TreeViewProvider.loadFiles()`: filter the git-reported files by the
active diff ignore patterns, discard the previous checked map and mark
every surviving file Checked.  `allFiles` is the result of
`gitService.getChangedFiles`. -/
def loadFiles (allFiles : List ChangedFile) (patterns : List String)
    (_prior : TVState) : TVState :=
  let kept := allFiles.filter (fun file => !isMatch file.path patterns)
  { changedFiles := kept
    checkedFiles := kept.foldl (fun m file => setMap m file.path true) (fun _ => false) }

/-- `TreeViewProvider.getCheckedFiles()`: the changed files whose map
entry is Checked, in the stored order. -/
def getCheckedFiles (st : TVState) : List ChangedFile :=
  st.changedFiles.filter (fun file => st.checkedFiles file.path)

mutual
/-- A node of the change-set tree: `FileNode` keeps the full changed-file
path (its display label is the basename), `FolderNode` keeps its label
and children in insertion order; `checked` is the node's
`checkboxState`. -/
inductive CNode where
  | file (path : String) (checked : Bool) : CNode
  | folder (label : String) (checked : Bool) (children : CForest) : CNode
  deriving DecidableEq

/-- Children lists of the change-set tree. -/
inductive CForest where
  | nil : CForest
  | cons (head : CNode) (tail : CForest) : CForest
  deriving DecidableEq
end

/-- A node's `checkboxState`. -/
def stateOf : CNode → Bool
  | .file _ b => b
  | .folder _ b _ => b

/-- A node's sort label (`path.basename(file.path)` for files, the
folder name for folders). -/
def labelOf : CNode → String
  | .file p _ => (splitSlash p).getLastD ""
  | .folder l _ _ => l

/-- Is the node a `FolderNode`? -/
def isFolder : CNode → Bool
  | .file _ _ => false
  | .folder _ _ _ => true

/-- Append a node at the end of a children list (`children.push`). -/
def forestAppend : CForest → CNode → CForest
  | .nil, x => .cons x .nil
  | .cons c t, x => .cons c (forestAppend t x)

/-- Is the children list empty (`folder.children.length > 0` negated)? -/
def forestIsNil : CForest → Bool
  | .nil => true
  | .cons _ _ => false

/-- `children.find(child => child instanceof FolderNode && child.label === lbl)`
turned into a boolean existence test. -/
def forestHasFolder (lbl : String) : CForest → Bool
  | .nil => false
  | .cons c t =>
    match c with
    | .folder l _ _ => if l = lbl then true else forestHasFolder lbl t
    | .file _ _ => forestHasFolder lbl t

/-- Replace the first folder child with the given label by `f` of it
(the source mutates the found child in place). -/
def forestUpdateFirstFolder (lbl : String) (f : CNode → CNode) : CForest → CForest
  | .nil => .nil
  | .cons c t =>
    match c with
    | .folder l b cs =>
      if l = lbl then .cons (f (.folder l b cs)) t
      else .cons (.folder l b cs) (forestUpdateFirstFolder lbl f t)
    | .file p b => .cons (.file p b) (forestUpdateFirstFolder lbl f t)

mutual
/-- The descendant file paths of a node, in depth-first child order. -/
def filesOfNode : CNode → List String
  | .file p _ => [p]
  | .folder _ _ cs => filesOfForest cs

/-- Descendant file paths of a children list. -/
def filesOfForest : CForest → List String
  | .nil => []
  | .cons c cs => filesOfNode c ++ filesOfForest cs
end

mutual
/-- A node together with all of its descendants, depth first. -/
def subNodes : CNode → List CNode
  | .file p b => [.file p b]
  | .folder l b cs => .folder l b cs :: subNodesForest cs

/-- All nodes of a children list together with their descendants. -/
def subNodesForest : CForest → List CNode
  | .nil => []
  | .cons c cs => subNodes c ++ subNodesForest cs
end

/-- `TreeViewProvider.addFileToFolder(folderNode, pathParts, file, ...)`:
insert a file (whose checkbox comes from the `checkedFiles` map with
Unchecked as default) below a folder, creating intermediate folders as
needed.  The source's `fullFolderPath` argument is dead (it is threaded
but never stored), so it is omitted.  A `file` node or empty `parts`
never occur at call sites and are returned unchanged. -/
def addFileToFolder (checked : String → Bool) (fpath : String) :
    List String → CNode → CNode
  | _, .file p b => .file p b
  | [], n => n
  | [_], .folder l b cs =>
    .folder l b (forestAppend cs (.file fpath (checked fpath)))
  | next :: rest :: more, .folder l b cs =>
    if forestHasFolder next cs then
      .folder l b
        (forestUpdateFirstFolder next
          (addFileToFolder checked fpath (rest :: more)) cs)
    else
      .folder l b
        (forestAppend cs
          (addFileToFolder checked fpath (rest :: more) (.folder next false .nil)))

mutual
/-- `TreeViewProvider.updateFolderCheckboxState(folder)`: recompute a
folder's checkbox from its (recursively updated) children; the source's
`allChecked` / `noneChecked` pair collapses to Checked exactly when all
children are Checked and the folder has at least one child (both the
`noneChecked` branch and the final `else` yield Unchecked). -/
def updateNode : CNode → CNode
  | .file p b => .file p b
  | .folder l _ cs =>
    let cs2 := updateForest cs
    .folder l (forestAllChecked cs2 && !forestIsNil cs2) cs2

/-- Recursively update every node of a children list. -/
def updateForest : CForest → CForest
  | .nil => .nil
  | .cons c t => .cons (updateNode c) (updateForest t)

/-- Are all nodes of a children list Checked? -/
def forestAllChecked : CForest → Bool
  | .nil => true
  | .cons c t => stateOf c && forestAllChecked t
end

/-- Stable insertion of a node into a label-sorted list (model of the
stable `Array.prototype.sort` with a `localeCompare` comparator; string
order stands in for the locale order). -/
def insertByLabel (x : CNode) : List CNode → List CNode
  | [] => [x]
  | h :: t => if labelOf x < labelOf h then x :: h :: t else h :: insertByLabel x t

/-- Sort a node list by label. -/
def sortByLabel (l : List CNode) : List CNode :=
  l.foldl (fun acc x => insertByLabel x acc) []

/-- Insertion-ordered map `Map<string, FolderNode>`: look up a root
folder by label. -/
def assocFind (k : String) : List (String × CNode) → Option CNode
  | [] => none
  | (k2, v) :: t => if k2 = k then some v else assocFind k t

/-- `map.set(k, v)` preserving first-insertion order. -/
def assocSet (k : String) (v : CNode) : List (String × CNode) → List (String × CNode)
  | [] => [(k, v)]
  | (k2, v2) :: t => if k2 = k then (k, v) :: t else (k2, v2) :: assocSet k v t

/-- One iteration of the `buildFileTree` loop: route a changed file either
to the root-level file list or into its top-level folder. -/
def buildStep (checked : String → Bool) :
    List (String × CNode) × List CNode → ChangedFile →
    List (String × CNode) × List CNode
  | (roots, fileNodes), file =>
    match splitSlash file.path with
    | [] => (roots, fileNodes)
    | [_] => (roots, fileNodes ++ [.file file.path (checked file.path)])
    | top :: rest :: more =>
      let base := (assocFind top roots).getD (.folder top false .nil)
      (assocSet top (addFileToFolder checked file.path (rest :: more) base) roots,
       fileNodes)

/-- `TreeViewProvider.buildFileTree()`: group the changed files into
top-level folders plus root files, recompute every folder's derived
checkbox, and return the sorted folders followed by the sorted root
files (children below the root keep insertion order; only the root level
is sorted). -/
def buildFileTree (files : List ChangedFile) (checked : String → Bool) : List CNode :=
  let built := files.foldl (buildStep checked) ([], [])
  sortByLabel (built.1.map (fun kv => updateNode kv.2)) ++ sortByLabel built.2

/-- Display order of the tree's file paths (depth-first flattening),
i.e. the "hierarchy order" of §4.3 of the spec. -/
def flattenNodes (l : List CNode) : List String :=
  (l.map filesOfNode).flatten

/-- `TreeViewProvider.updateFolderChildren(folder, state)` restricted to
its effect on the `checkedFiles` map: every descendant file path is set
to the new state (the node-state writes are rebuilt from the map on the
next render). -/
def tvCascade (fo : CNode) (b : Bool) (m : String → Bool) : String → Bool :=
  (filesOfNode fo).foldl (fun m2 p => setMap m2 p b) m

/-- `TreeViewProvider.handleCheckboxChanges(items)`, effect on the
`checkedFiles` map: partition the batch, apply all file entries first,
then cascade folder entries to their descendants only when the batch
contained no file entry (`shouldPropagateFolderState`). -/
def tvHandleCheckboxChanges (items : List (CNode × Bool))
    (checked : String → Bool) : String → Bool :=
  let fileItems := items.filter (fun it => !isFolder it.1)
  let folderItems := items.filter (fun it => isFolder it.1)
  let afterFiles := fileItems.foldl
    (fun m it =>
      match it.1 with
      | .file p _ => setMap m p it.2
      | .folder _ _ _ => m) checked
  let shouldPropagateFolderState := fileItems.isEmpty
  folderItems.foldl
    (fun m it => if shouldPropagateFolderState then tvCascade it.1 it.2 m else m)
    afterFiles

/-! ## Project tree (`ProjectTreeProvider`, configViewProvider.ts) -/

/-- The checked-path `Set<string>`: a list in insertion order. -/
def setAdd (l : List String) (p : String) : List String :=
  if l.contains p then l else l ++ [p]

/-- `set.delete(p)`. -/
def setDel (l : List String) (p : String) : List String :=
  l.filter (fun q => q ≠ p)

/-- `set.has(p)`. -/
def selHas (l : List String) (p : String) : Bool := l.contains p

/-- Add when Checked, delete when Unchecked (the shape of both
`setFileCheckbox` and the folder cascade). -/
def setApply (l : List String) (p : String) (b : Bool) : List String :=
  if b then setAdd l p else setDel l p

/-- A batch item of the project tree's checkbox event: a
`ProjectFileNode` (with `hasCheckbox = false` when the node is a locked
change-set file, whose `checkboxState` is `undefined`), or a
`ProjectFolderNode` carrying the directory it denotes. -/
inductive PItem where
  | pfile (rel : String) (hasCheckbox : Bool) : PItem
  | pfolder (rel : String) (dirEntry : FsEntry) : PItem
  deriving DecidableEq

/-- Is the item a folder item? -/
def isPFolder : PItem → Bool
  | .pfile _ _ => false
  | .pfolder _ _ => true

/-- `ProjectTreeProvider.handleCheckboxChanges(items)`: one pass applies
every file item immediately (skipping locked files) and collects folder
items; a second pass then walks each folder's directory and adds or
removes every non-locked discovered path — unconditionally, with no
check that the batch contained no file change. -/
def ptHandleCheckboxChanges (patterns : List String) (changedSet : List String)
    (items : List (PItem × Bool)) (checkedFiles : List String) : List String :=
  let afterFiles := items.foldl
    (fun l it =>
      match it.1 with
      | .pfile rel hasCb => if hasCb then setApply l rel it.2 else l
      | .pfolder _ _ => l) checkedFiles
  let folderItems := items.filter (fun it => isPFolder it.1)
  folderItems.foldl
    (fun l it =>
      match it.1 with
      | .pfolder rel d =>
        let files := walkDir patterns rel d
        let eligible := files.filter (fun f => !changedSet.contains f)
        eligible.foldl (fun l2 f => setApply l2 f it.2) l
      | .pfile _ _ => l) afterFiles

/-- `ProjectTreeProvider.computeFolderMetadata(relativePath)`: walk the
folder, keep the non-locked files, and derive the pair
`(checkboxState, tokenTotal)`; no eligible file means Unchecked with
cost 0, otherwise Checked exactly when every eligible file is in the
checked set, with the cost the sum of the per-file estimates.  `est`
abstracts `getFileTokenCount` (the memoized `TokenEstimator`, which
returns one stable number per path). -/
def computeFolderMetadata (patterns : List String) (changedSet : List String)
    (checkedFiles : List String) (est : String → Nat)
    (rel : String) (d : FsEntry) : Bool × Nat :=
  let files := walkDir patterns rel d
  let eligible := files.filter (fun f => !changedSet.contains f)
  if eligible.isEmpty then (false, 0)
  else
    let tokenTotal := (eligible.map est).sum
    let checkedCount := eligible.countP (fun f => checkedFiles.contains f)
    (checkedCount == eligible.length, tokenTotal)

/-- A rendered row of the project tree (`ProjectFolderNode` /
`ProjectFileNode`): the label, the workspace-relative path, the checkbox
(`none` for a locked file) and the token count shown next to it. -/
inductive PDisplayNode where
  | pfolderRow (label rel : String) (checked : Bool) (cost : Nat) : PDisplayNode
  | pfileRow (label rel : String) (checked : Option Bool) (cost : Nat) : PDisplayNode
  deriving DecidableEq

/-- The comparator of `getChildren`'s final sort: folders before files,
then label order. -/
def pRowBefore : PDisplayNode → PDisplayNode → Bool
  | .pfolderRow _ _ _ _, .pfileRow _ _ _ _ => true
  | .pfileRow _ _ _ _, .pfolderRow _ _ _ _ => false
  | .pfolderRow l1 _ _ _, .pfolderRow l2 _ _ _ => l1 < l2
  | .pfileRow l1 _ _ _, .pfileRow l2 _ _ _ => l1 < l2

/-- Stable insertion sort with `pRowBefore` (model of the stable
`Array.prototype.sort` call in `getChildren`). -/
def insertPRow (x : PDisplayNode) : List PDisplayNode → List PDisplayNode
  | [] => [x]
  | h :: t => if pRowBefore x h then x :: h :: t else h :: insertPRow x t

/-- Sort the rendered rows. -/
def sortPRows (l : List PDisplayNode) : List PDisplayNode :=
  l.foldl (fun acc x => insertPRow x acc) []

/-- The row-building loop of `getChildren` over a directory listing. -/
def pChildRows (patterns : List String) (changedSet : List String)
    (checkedFiles : List String) (est : String → Nat)
    (pre : String) : FsList → List PDisplayNode
  | .nil => []
  | .cons e es =>
    let rel := joinRel pre e.name
    (if isMatch rel patterns then []
     else
       match e with
       | .dir n r sub =>
         let meta := computeFolderMetadata patterns changedSet checkedFiles est
           rel (.dir n r sub)
         [.pfolderRow n rel meta.1 meta.2]
       | .file n _ =>
         let st := if changedSet.contains rel then none
           else some (checkedFiles.contains rel)
         [.pfileRow n rel st (est rel)])
    ++ pChildRows patterns changedSet checkedFiles est pre es

/-- `ProjectTreeProvider.getChildren(element)`: list a directory's
rendered rows (filtered by the ignore patterns, folders before files,
label-sorted); a `readdir` failure (unreadable directory, or a non-directory
path) is caught and yields `[]`. -/
def pGetChildren (patterns : List String) (changedSet : List String)
    (checkedFiles : List String) (est : String → Nat)
    (pre : String) (d : FsEntry) : List PDisplayNode :=
  match d with
  | .file _ _ => []
  | .dir _ r es =>
    if r then sortPRows (pChildRows patterns changedSet checkedFiles est pre es)
    else []

/-- The raw `aiReview.ignorePatterns` configuration value: the legacy
plain array form, the current pattern-to-enabled record form, or
anything else. -/
inductive RawIgnoreConfig where
  | arr (ps : List String) : RawIgnoreConfig
  | obj (entries : List (String × Bool)) : RawIgnoreConfig
  | other : RawIgnoreConfig

/-- Normalization performed by `loadConfig`: an array is first folded
into a record keyed by pattern with value `true` (so duplicates collapse
to their first occurrence), then the enabled entries' keys are kept. -/
def normalizePatterns : RawIgnoreConfig → List String
  | .arr ps => ps.foldl (fun acc p => if acc.contains p then acc else acc ++ [p]) []
  | .obj entries => (entries.filter (fun e => e.2)).map (fun e => e.1)
  | .other => []

/-- The project-tree state fields the embedded operations touch. -/
structure PTState where
  activeIgnorePatterns : List String
  checkedFiles : List String
  changedFilesSet : List String

/-- `ProjectTreeProvider.loadConfig()`: replace the active pattern list
from the configuration; `checkedFiles` and `changedFilesSet` are not
touched. -/
def loadConfig (s : PTState) (raw : RawIgnoreConfig) : PTState :=
  { s with activeIgnorePatterns := normalizePatterns raw }

/-- `ProjectTreeProvider.getCheckedFiles()`: `Array.from(this.checkedFiles)`. -/
def ptGetCheckedFiles (s : PTState) : List String := s.checkedFiles

/-- `ProjectTreeProvider.getSelectedTokenTotal()`: sum the per-file
estimates over the checked set. -/
def getSelectedTokenTotal (est : String → Nat) (s : PTState) : Nat :=
  (s.checkedFiles.map est).sum

/-! ## Structural predicates used to state the folder-state invariant -/

mutual
/-- Every folder in the subtree (the node itself included) has at least
one child; `buildFileTree` only ever creates a folder on the path of
some file, so all its folders satisfy this. -/
def wfNode : CNode → Bool
  | .file _ _ => true
  | .folder _ _ cs => !forestIsNil cs && wfForest cs

/-- `wfNode` for every node of a children list. -/
def wfForest : CForest → Bool
  | .nil => true
  | .cons c t => wfNode c && wfForest t
end

mutual
/-- Every file node of the subtree carries the checkbox recorded for its
path in the `checkedFiles` map (true of every node `buildFileTree`
creates). -/
def agreeNode (checked : String → Bool) : CNode → Bool
  | .file p b => b == checked p
  | .folder _ _ cs => agreeForest checked cs

/-- `agreeNode` for every node of a children list. -/
def agreeForest (checked : String → Bool) : CForest → Bool
  | .nil => true
  | .cons c t => agreeNode checked c && agreeForest checked t
end

/-! ## Concrete instances used by witnesses and counterexamples -/

/-- Change-set state after `loadFiles` on a root file plus a nested file. -/
def st6 : TVState := loadFiles [⟨"a.ts", "M"⟩, ⟨"src/b.ts", "M"⟩] [] ⟨[], fun _ => false⟩

/-- A readable directory `src` holding two files. -/
def cex1Dir : FsEntry :=
  .dir "src" true (.cons (.file "a.txt" "xx") (.cons (.file "b.txt" "yy") .nil))

/-- A project-tree batch: the user unchecks the file `src/a.txt`, and the
host also reports the parent folder's recomputed (derived) display state. -/
def cex1Items : List (PItem × Bool) :=
  [(.pfile "src/a.txt" true, false), (.pfolder "src" cex1Dir, false)]

/-- Both files under `src` start out checked. -/
def cex1Checked : List String := ["src/a.txt", "src/b.txt"]

/-- A change-set folder node over two files, for the amended-batch witness. -/
def w1Folder : CNode :=
  .folder "src" true (.cons (.file "src/a.txt" true) (.cons (.file "src/b.txt" true) .nil))

/-- A concrete checked map for the amended-batch witness. -/
def w1Map : String → Bool := fun q => q = "src/a.txt" || q = "src/b.txt"

/-- Concrete changed files for the folder-state witness. -/
def w4files : List ChangedFile := [⟨"src/a.ts", "M"⟩, ⟨"src/b.ts", "A"⟩]

/-- Concrete checked map with only one of the two files checked. -/
def w4map : String → Bool := fun q => q = "src/a.ts"

/-- The folder node `buildFileTree w4files w4map` produces. -/
def w4node : CNode :=
  .folder "src" false (.cons (.file "src/a.ts" true) (.cons (.file "src/b.ts" false) .nil))

/-- A directory whose two files are both locked (change-set members). -/
def w5Dir : FsEntry :=
  .dir "lib" true (.cons (.file "c.txt" "zz") (.cons (.file "d.txt" "ww") .nil))

/-- A concrete project-tree state whose checked set holds a path that the
new ignore patterns hide. -/
def w10State : PTState :=
  { activeIgnorePatterns := [], checkedFiles := ["out/main.js"], changedFilesSet := [] }

/-! ## Helper lemmas -/

theorem isMatch_pred_iff (np pat : String) :
    ((if strTrim pat = "" then false
      else if minimatchB np (strTrim pat) then true
      else (splitSlash np).contains (strTrim pat)) = true) ↔
      (strTrim pat ≠ "" ∧
        (minimatchB np (strTrim pat) = true ∨
         (splitSlash np).contains (strTrim pat) = true)) := by
  by_cases h0 : strTrim pat = ""
  · simp [h0]
  · by_cases h1 : minimatchB np (strTrim pat) = true
    · simp [h0, h1]
    · simp [h0, h1]

theorem foldl_setMap_true (l : List ChangedFile) (m0 : String → Bool) (q : String) :
    (l.foldl (fun m file => setMap m file.path true) m0) q
      = (m0 q || l.any (fun file => file.path = q)) := by
  induction l generalizing m0 with
  | nil => simp
  | cons h t ih =>
    simp only [List.foldl_cons, List.any_cons, ih]
    by_cases hq : q = h.path
    · simp [setMap, hq]
    · have : ¬(h.path = q) := fun he => hq he.symm
      simp [setMap, hq, this]

theorem foldl_setMap_const (b : Bool) (l : List String) (m0 : String → Bool) (q : String) :
    (l.foldl (fun m p => setMap m p b) m0) q = if q ∈ l then b else m0 q := by
  induction l generalizing m0 with
  | nil => simp
  | cons h t ih =>
    simp only [List.foldl_cons, ih]
    by_cases ht : q ∈ t
    · simp [ht]
    · by_cases hh : q = h
      · simp [ht, hh, setMap]
      · simp [ht, hh, setMap]

theorem selHas_setApply (l : List String) (p : String) (b : Bool) (q : String) :
    selHas (setApply l p b) q = if q = p then b else selHas l q := by
  have hmem : ∀ (l2 : List String), selHas l2 q = decide (q ∈ l2) := by
    intro l2
    simp [selHas, List.elem_iff]
  cases b with
  | true =>
    by_cases hq : q = p
    · subst hq
      by_cases hc : q ∈ l
      · simp [setApply, setAdd, hc, hmem]
      · simp [setApply, setAdd, hc, hmem]
    · by_cases hc : p ∈ l
      · simp [setApply, setAdd, hc, hq]
      · simp [setApply, setAdd, hc, hq, hmem]
  | false =>
    by_cases hq : q = p
    · subst hq
      simp [setApply, setDel, hmem, List.mem_filter]
    · simp [setApply, setDel, hq, hmem, List.mem_filter, hq]

theorem selHas_foldl_setApply (b : Bool) (l : List String) (m0 : List String) (q : String) :
    selHas (l.foldl (fun acc f => setApply acc f b) m0) q
      = if q ∈ l then b else selHas m0 q := by
  induction l generalizing m0 with
  | nil => simp
  | cons h t ih =>
    simp only [List.foldl_cons, ih, selHas_setApply]
    by_cases ht : q ∈ t
    · simp [ht]
    · by_cases hh : q = h
      · simp [ht, hh]
      · simp [ht, hh]

theorem fsInd (P : FsEntry → Prop) (Q : FsList → Prop)
    (hfile : ∀ n c, P (.file n c))
    (hdir : ∀ n r es, Q es → P (.dir n r es))
    (hnil : Q .nil)
    (hcons : ∀ e t, P e → Q t → Q (.cons e t)) :
    (∀ e, P e) ∧ (∀ l, Q l) :=
  ⟨fun e => FsEntry.rec hfile hdir hnil hcons e,
   fun l => FsList.rec hfile hdir hnil hcons l⟩

theorem nodeInd (P : CNode → Prop) (Q : CForest → Prop)
    (hfile : ∀ p b, P (.file p b))
    (hfolder : ∀ l b cs, Q cs → P (.folder l b cs))
    (hnil : Q .nil)
    (hcons : ∀ c t, P c → Q t → Q (.cons c t)) :
    (∀ c, P c) ∧ (∀ cs, Q cs) :=
  ⟨fun c => CNode.rec hfile hfolder hnil hcons c,
   fun cs => CForest.rec hfile hfolder hnil hcons cs⟩

theorem forestInd (Q : CForest → Prop) (hnil : Q .nil)
    (hcons : ∀ c t, Q t → Q (.cons c t)) : ∀ cs, Q cs :=
  (nodeInd (fun _ => True) Q (fun _ _ => trivial) (fun _ _ _ _ => trivial) hnil
    (fun c t _ ih => hcons c t ih)).2

theorem filesOf_update_pair :
    (∀ c : CNode, filesOfNode (updateNode c) = filesOfNode c) ∧
    (∀ cs : CForest, filesOfForest (updateForest cs) = filesOfForest cs) := by
  apply nodeInd
  · intro p b
    rfl
  · intro l b cs ih
    simp [updateNode, filesOfNode, ih]
  · rfl
  · intro c t ihc iht
    simp [updateForest, filesOfForest, ihc, iht]

theorem wf_files_ne_pair :
    (∀ c : CNode, wfNode c = true → filesOfNode c ≠ []) ∧
    (∀ cs : CForest, wfForest cs = true → forestIsNil cs = false →
       filesOfForest cs ≠ []) := by
  apply nodeInd
  · intro p b _
    simp [filesOfNode]
  · intro l b cs ih hw
    simp only [wfNode, Bool.and_eq_true] at hw
    have h2 : forestIsNil cs = false := by
      cases h3 : forestIsNil cs
      · rfl
      · rw [h3] at hw
        simp at hw
    simpa [filesOfNode] using ih hw.2 h2
  · intro _ h
    simp [forestIsNil] at h
  · intro c t ihc iht hw _
    simp only [wfForest, Bool.and_eq_true] at hw
    have h1 := ihc hw.1
    simp only [filesOfForest]
    intro heq
    exact h1 (List.append_eq_nil.mp heq).1

theorem isNil_update (cs : CForest) : forestIsNil (updateForest cs) = forestIsNil cs := by
  cases cs <;> rfl

theorem update_state_pair (checked : String → Bool) :
    (∀ c : CNode, wfNode c = true → agreeNode checked c = true →
       stateOf (updateNode c)
         = (decide (filesOfNode c ≠ []) && (filesOfNode c).all checked)) ∧
    (∀ cs : CForest, wfForest cs = true → agreeForest checked cs = true →
       forestAllChecked (updateForest cs) = (filesOfForest cs).all checked) := by
  apply nodeInd
  · intro p b _ ha
    simp only [agreeNode, beq_iff_eq] at ha
    simp [updateNode, stateOf, filesOfNode, ha]
  · intro l b cs ih hw ha
    simp only [wfNode, Bool.and_eq_true] at hw
    have hnil : forestIsNil cs = false := by
      cases h3 : forestIsNil cs
      · rfl
      · rw [h3] at hw
        simp at hw
    have hne : filesOfForest cs ≠ [] := wf_files_ne_pair.2 cs hw.2 hnil
    simp only [agreeNode] at ha
    simp [updateNode, stateOf, filesOfNode, ih hw.2 ha, isNil_update, hnil, hne]
  · intro _ _
    simp [updateForest, forestAllChecked, filesOfForest]
  · intro c t ihc iht hw ha
    simp only [wfForest, Bool.and_eq_true] at hw
    simp only [agreeForest, Bool.and_eq_true] at ha
    have hne : filesOfNode c ≠ [] := wf_files_ne_pair.1 c hw.1
    simp only [updateForest, forestAllChecked]
    rw [ihc hw.1 ha.1, iht hw.2 ha.2]
    simp [filesOfForest, List.all_append, hne]

theorem update_subnodes_pair (checked : String → Bool) :
    (∀ c : CNode, wfNode c = true → agreeNode checked c = true →
       ∀ d ∈ subNodes (updateNode c), isFolder d = true →
         stateOf d = (decide (filesOfNode d ≠ []) && (filesOfNode d).all checked)) ∧
    (∀ cs : CForest, wfForest cs = true → agreeForest checked cs = true →
       ∀ d ∈ subNodesForest (updateForest cs), isFolder d = true →
         stateOf d = (decide (filesOfNode d ≠ []) && (filesOfNode d).all checked)) := by
  apply nodeInd
  · intro p b _ _ d hd hf
    simp only [updateNode, subNodes, List.mem_singleton] at hd
    subst hd
    simp [isFolder] at hf
  · intro l b cs ih hw ha d hd hf
    simp only [updateNode, subNodes, List.mem_cons] at hd
    rcases hd with rfl | hd
    · have h1 := (update_state_pair checked).1 (.folder l b cs) hw ha
      have h2 := filesOf_update_pair.1 (.folder l b cs)
      show stateOf (updateNode (.folder l b cs))
        = (decide (filesOfNode (updateNode (.folder l b cs)) ≠ []) &&
           (filesOfNode (updateNode (.folder l b cs))).all checked)
      rw [h2]
      exact h1
    · simp only [wfNode, Bool.and_eq_true] at hw
      simp only [agreeNode] at ha
      exact ih hw.2 ha d hd hf
  · intro _ _ d hd _
    simp [updateForest, subNodesForest] at hd
  · intro c t ihc iht hw ha d hd hf
    simp only [wfForest, Bool.and_eq_true] at hw
    simp only [agreeForest, Bool.and_eq_true] at ha
    simp only [updateForest, subNodesForest, List.mem_append] at hd
    rcases hd with hd | hd
    · exact ihc hw.1 ha.1 d hd hf
    · exact iht hw.2 ha.2 d hd hf

theorem wf_forestAppend (x : CNode) :
    ∀ cs, wfForest (forestAppend cs x) = (wfForest cs && wfNode x) := by
  refine forestInd _ ?_ ?_
  · simp [forestAppend, wfForest]
  · intro c t ih
    simp [forestAppend, wfForest, ih, Bool.and_assoc]

theorem agree_forestAppend (checked : String → Bool) (x : CNode) :
    ∀ cs, agreeForest checked (forestAppend cs x)
      = (agreeForest checked cs && agreeNode checked x) := by
  refine forestInd _ ?_ ?_
  · simp [forestAppend, agreeForest]
  · intro c t ih
    simp [forestAppend, agreeForest, ih, Bool.and_assoc]

theorem isNil_forestAppend (x : CNode) (cs : CForest) :
    forestIsNil (forestAppend cs x) = false := by
  cases cs <;> rfl

theorem hasFolder_not_nil (lbl : String) (cs : CForest)
    (h : forestHasFolder lbl cs = true) : forestIsNil cs = false := by
  cases cs
  · simp [forestHasFolder] at h
  · rfl

theorem isNil_updateFirst (lbl : String) (f : CNode → CNode) (cs : CForest) :
    forestIsNil (forestUpdateFirstFolder lbl f cs) = forestIsNil cs := by
  cases cs with
  | nil => rfl
  | cons c t =>
    cases c with
    | file p b => rfl
    | folder l b cs2 =>
      by_cases h : l = lbl <;> simp [forestUpdateFirstFolder, h, forestIsNil]

theorem wf_updateFirst (lbl : String) (f : CNode → CNode)
    (hf : ∀ l2 b2 cs2, wfNode (.folder l2 b2 cs2) = true →
       wfNode (f (.folder l2 b2 cs2)) = true) :
    ∀ cs, wfForest cs = true →
      wfForest (forestUpdateFirstFolder lbl f cs) = true := by
  refine forestInd _ ?_ ?_
  · intro _
    rfl
  · intro c t ih hw
    simp only [wfForest, Bool.and_eq_true] at hw
    cases c with
    | file p b =>
      simp [forestUpdateFirstFolder, wfForest, hw.1, ih hw.2]
    | folder l2 b2 cs2 =>
      by_cases h : l2 = lbl
      · subst h
        simp [forestUpdateFirstFolder, wfForest, hf _ _ _ hw.1, hw.2]
      · simp [forestUpdateFirstFolder, h, wfForest, hw.1, ih hw.2]

theorem agree_updateFirst (checked : String → Bool) (lbl : String) (f : CNode → CNode)
    (hf : ∀ l2 b2 cs2, agreeNode checked (.folder l2 b2 cs2) = true →
       agreeNode checked (f (.folder l2 b2 cs2)) = true) :
    ∀ cs, agreeForest checked cs = true →
      agreeForest checked (forestUpdateFirstFolder lbl f cs) = true := by
  refine forestInd _ ?_ ?_
  · intro _
    rfl
  · intro c t ih ha
    simp only [agreeForest, Bool.and_eq_true] at ha
    cases c with
    | file p b =>
      simp [forestUpdateFirstFolder, agreeForest, ha.1, ih ha.2]
    | folder l2 b2 cs2 =>
      by_cases h : l2 = lbl
      · subst h
        simp [forestUpdateFirstFolder, agreeForest, hf _ _ _ ha.1, ha.2]
      · simp [forestUpdateFirstFolder, h, agreeForest, ha.1, ih ha.2]

theorem addFile_isFolder (checked : String → Bool) (fpath : String)
    (parts : List String) (l : String) (b : Bool) (cs : CForest) :
    isFolder (addFileToFolder checked fpath parts (.folder l b cs)) = true := by
  cases parts with
  | nil => rfl
  | cons next tl =>
    cases tl with
    | nil => rfl
    | cons rest more =>
      by_cases h : forestHasFolder next cs = true <;>
        simp [addFileToFolder, h, isFolder]

theorem addFile_wf (checked : String → Bool) (fpath : String) :
    ∀ parts : List String, parts ≠ [] → ∀ (l : String) (b : Bool) (cs : CForest),
      wfForest cs = true →
      wfNode (addFileToFolder checked fpath parts (.folder l b cs)) = true := by
  intro parts
  induction parts with
  | nil => intro h; exact absurd rfl h
  | cons next tl ih =>
    intro _ l b cs hw
    cases tl with
    | nil =>
      simp [addFileToFolder, wfNode, isNil_forestAppend, wf_forestAppend, hw, wfNode]
    | cons rest more =>
      by_cases hh : forestHasFolder next cs = true
      · have hupd := wf_updateFirst next
          (addFileToFolder checked fpath (rest :: more))
          (fun l2 b2 cs2 h2 => by
            simp only [wfNode, Bool.and_eq_true] at h2
            exact ih (by simp) l2 b2 cs2 h2.2)
          cs hw
        simp [addFileToFolder, hh, wfNode, isNil_updateFirst,
          hasFolder_not_nil next cs hh, hupd]
      · have hnew := ih (by simp) next false .nil rfl
        simp [addFileToFolder, hh, wfNode, isNil_forestAppend, wf_forestAppend, hw, hnew]

theorem addFile_agree (checked : String → Bool) (fpath : String) :
    ∀ parts : List String, ∀ (l : String) (b : Bool) (cs : CForest),
      agreeForest checked cs = true →
      agreeNode checked (addFileToFolder checked fpath parts (.folder l b cs)) = true := by
  intro parts
  induction parts with
  | nil =>
    intro l b cs ha
    simpa [addFileToFolder, agreeNode] using ha
  | cons next tl ih =>
    intro l b cs ha
    cases tl with
    | nil =>
      simp [addFileToFolder, agreeNode, agree_forestAppend, ha]
    | cons rest more =>
      by_cases hh : forestHasFolder next cs = true
      · have hupd := agree_updateFirst checked next
          (addFileToFolder checked fpath (rest :: more))
          (fun l2 b2 cs2 h2 => by
            simp only [agreeNode] at h2
            exact ih l2 b2 cs2 h2)
          cs ha
        simp [addFileToFolder, hh, agreeNode, hupd]
      · have hnew := ih next false .nil rfl
        simp [addFileToFolder, hh, agreeNode, agree_forestAppend, ha, hnew]

theorem assocFind_mem (k : String) :
    ∀ roots : List (String × CNode), ∀ v, assocFind k roots = some v → (k, v) ∈ roots := by
  intro roots
  induction roots with
  | nil => intro v h; simp [assocFind] at h
  | cons kv t ih =>
    obtain ⟨k2, v2⟩ := kv
    intro v h
    simp only [assocFind] at h
    by_cases hk : k2 = k
    · rw [if_pos hk] at h
      simp only [Option.some.injEq] at h
      subst h
      subst hk
      exact List.mem_cons_self _ _
    · rw [if_neg hk] at h
      exact List.mem_cons_of_mem _ (ih v h)

theorem assocSet_mem (k : String) (v : CNode) :
    ∀ roots : List (String × CNode), ∀ kv ∈ assocSet k v roots,
      kv = (k, v) ∨ kv ∈ roots := by
  intro roots
  induction roots with
  | nil =>
    intro kv h
    simp [assocSet] at h
    exact Or.inl h
  | cons kv0 t ih =>
    obtain ⟨k0, v0⟩ := kv0
    intro kv h
    simp only [assocSet] at h
    by_cases hk : k0 = k
    · rw [if_pos hk] at h
      rcases List.mem_cons.mp h with rfl | h2
      · exact Or.inl rfl
      · exact Or.inr (List.mem_cons_of_mem _ h2)
    · rw [if_neg hk] at h
      rcases List.mem_cons.mp h with rfl | h2
      · exact Or.inr (List.mem_cons_self _ _)
      · rcases ih kv h2 with h3 | h3
        · exact Or.inl h3
        · exact Or.inr (List.mem_cons_of_mem _ h3)

/-- The invariant maintained along the `buildFileTree` fold: every stored
top-level folder is a well-formed folder agreeing with the checked map,
and every collected root node is a file node. -/
def BuildInv (checked : String → Bool)
    (acc : List (String × CNode) × List CNode) : Prop :=
  (∀ kv ∈ acc.1, wfNode kv.2 = true ∧ agreeNode checked kv.2 = true ∧
     isFolder kv.2 = true) ∧
  (∀ n ∈ acc.2, isFolder n = false)

theorem buildStep_inv (checked : String → Bool)
    (acc : List (String × CNode) × List CNode) (file : ChangedFile)
    (h : BuildInv checked acc) : BuildInv checked (buildStep checked acc file) := by
  obtain ⟨h1, h2⟩ := h
  obtain ⟨roots, fileNodes⟩ := acc
  simp only [buildStep]
  cases hsp : splitSlash file.path with
  | nil => exact ⟨h1, h2⟩
  | cons top tl =>
    cases tl with
    | nil =>
      refine ⟨h1, ?_⟩
      intro n hn
      rcases List.mem_append.mp hn with hn | hn
      · exact h2 n hn
      · simp only [List.mem_singleton] at hn
        subst hn
        rfl
    | cons rest more =>
      refine ⟨?_, h2⟩
      intro kv hkv
      rcases assocSet_mem top _ roots kv hkv with rfl | hold
      · cases hfind : assocFind top roots with
        | some v =>
          obtain ⟨hwv, hav, hfv⟩ := h1 (top, v) (assocFind_mem top roots v hfind)
          cases v with
          | file p b => simp [isFolder] at hfv
          | folder l2 b2 cs2 =>
            simp only [wfNode, Bool.and_eq_true] at hwv
            simp only [agreeNode] at hav
            refine ⟨?_, ?_, ?_⟩
            · simpa [hfind] using
                addFile_wf checked file.path (rest :: more) (by simp) l2 b2 cs2 hwv.2
            · simpa [hfind] using
                addFile_agree checked file.path (rest :: more) l2 b2 cs2 hav
            · simpa [hfind] using
                addFile_isFolder checked file.path (rest :: more) l2 b2 cs2
        | none =>
          refine ⟨?_, ?_, ?_⟩
          · simpa [hfind] using
              addFile_wf checked file.path (rest :: more) (by simp) top false .nil rfl
          · simpa [hfind] using
              addFile_agree checked file.path (rest :: more) top false .nil rfl
          · simpa [hfind] using
              addFile_isFolder checked file.path (rest :: more) top false .nil
      · exact h1 kv hold

theorem foldl_buildStep_inv (checked : String → Bool) :
    ∀ (files : List ChangedFile) (acc : List (String × CNode) × List CNode),
      BuildInv checked acc →
      BuildInv checked (files.foldl (buildStep checked) acc) := by
  intro files
  induction files with
  | nil => intro acc h; exact h
  | cons f t ih =>
    intro acc h
    exact ih _ (buildStep_inv checked acc f h)

theorem mem_insertByLabel (a x : CNode) :
    ∀ l : List CNode, a ∈ insertByLabel x l ↔ a = x ∨ a ∈ l := by
  intro l
  induction l with
  | nil => simp [insertByLabel]
  | cons h t ih =>
    by_cases hlt : labelOf x < labelOf h
    · simp [insertByLabel, hlt]
      try tauto
    · simp [insertByLabel, hlt, ih]
      try tauto

theorem mem_sortByLabel_aux (a : CNode) :
    ∀ (l acc : List CNode),
      a ∈ l.foldl (fun acc x => insertByLabel x acc) acc ↔ a ∈ acc ∨ a ∈ l := by
  intro l
  induction l with
  | nil => simp
  | cons h t ih =>
    intro acc
    simp only [List.foldl_cons, ih, mem_insertByLabel]
    simp
    tauto

theorem mem_sortByLabel (a : CNode) (l : List CNode) :
    a ∈ sortByLabel l ↔ a ∈ l := by
  simp [sortByLabel, mem_sortByLabel_aux]

theorem walkEntries_skip (patterns : List String) (pre n : String) (es ys xs : FsList) :
    walkEntries patterns pre (fsAppend xs (.cons (.dir n false es) ys))
      = walkEntries patterns pre (fsAppend xs ys) := by
  refine (fsInd (fun _ => True)
    (fun xs => walkEntries patterns pre (fsAppend xs (.cons (.dir n false es) ys))
      = walkEntries patterns pre (fsAppend xs ys))
    (fun _ _ => trivial) (fun _ _ _ _ => trivial) ?_ ?_).2 xs
  · simp only [fsAppend, walkEntries, walkDir, FsEntry.name]
    by_cases h : isMatch (joinRel pre n) patterns <;> simp [h]
  · intro e t _ ih
    simp only [fsAppend, walkEntries, ih]

/-! ## Claim theorems -/

/-- C2. `isMatch(p, P)` is true iff some pattern of `P`, after trimming,
is nonempty and either is accepted by minimatch against the full
normalized path or is string-equal to one of the path's `/`-separated
segments; in particular the bare pattern `out` matches `out/main.js` and
`a/b/out/main.js` but not `output/main.js` (bare patterns only match
whole segments). -/
theorem isMatch_glob_or_segment :
    (∀ p P, isMatch p P = true ↔
       ∃ pat ∈ P, strTrim pat ≠ "" ∧
         (minimatchB (normalizeSlashes p) (strTrim pat) = true ∨
          (splitSlash (normalizeSlashes p)).contains (strTrim pat) = true)) ∧
    isMatch "out/main.js" ["out"] = true ∧
    isMatch "a/b/out/main.js" ["out"] = true ∧
    isMatch "output/main.js" ["out"] = false := by
  refine ⟨fun p P => ?_, by decide, by decide, by decide⟩
  simp only [isMatch, List.any_eq_true]
  exact exists_congr fun pat =>
    and_congr_right fun _ => isMatch_pred_iff (normalizeSlashes p) pat

/-- C3. `isMatch` over an empty pattern set is false, and a pattern that
trims to the empty string (empty or whitespace-only) never contributes a
match: removing it from the pattern list does not change the result. -/
theorem isMatch_empty_blank :
    (∀ p, isMatch p ([] : List String) = false) ∧
    (∀ p pat xs ys, strTrim pat = "" →
      isMatch p (xs ++ pat :: ys) = isMatch p (xs ++ ys)) := by
  constructor
  · intro p
    rfl
  · intro p pat xs ys h
    simp only [isMatch, List.any_append, List.any_cons, h]
    simp [h]

/-- Witness for C3 at a whitespace-only pattern. -/
theorem isMatch_empty_blank_witness :
    strTrim "  " = "" ∧
    isMatch "a/b" (["zz"] ++ "  " :: []) = isMatch "a/b" (["zz"] ++ []) :=
  ⟨by decide, isMatch_empty_blank.2 "a/b" "  " ["zz"] [] (by decide)⟩

/-- C1 counterexample. On the project tree, a batch holding one file
toggle (unchecking `src/a.txt`) together with the parent folder's
derived entry does NOT leave the sibling untouched: the folder entry is
cascaded even though the batch contains a file change, so `src/b.txt`
(checked beforehand) ends up unchecked. -/
theorem batch_folder_cascade_counterexample :
    selHas cex1Checked "src/b.txt" = true ∧
    selHas (ptHandleCheckboxChanges [] [] cex1Items cex1Checked) "src/b.txt" = false :=
  ⟨by decide, by decide⟩

/-- C1 (amended). File changes are applied before folder changes on both
trees, but the "cascade only when there are no file changes" guard
exists only on the change-set tree: (a) on the change-set tree a batch
of one file toggle plus a folder entry changes only that file's
selection; (b) on the change-set tree a folder-only batch cascades to
all of the folder's descendant files; (c) on the project tree a batch of
one file toggle plus a folder entry applies the file first and then
unconditionally cascades the folder state to every eligible descendant,
overwriting siblings. -/
theorem batch_propagation_amended :
    (∀ (p : String) (fb s : Bool) (fo : CNode) (s2 : Bool) (checked : String → Bool),
       isFolder fo = true →
       (tvHandleCheckboxChanges [(.file p fb, s), (fo, s2)] checked p = s ∧
        ∀ q, q ≠ p →
          tvHandleCheckboxChanges [(.file p fb, s), (fo, s2)] checked q = checked q)) ∧
    (∀ (fo : CNode) (s2 : Bool) (checked : String → Bool) (q : String),
       isFolder fo = true →
       tvHandleCheckboxChanges [(fo, s2)] checked q
         = if q ∈ filesOfNode fo then s2 else checked q) ∧
    (∀ patterns changedSet (p : String) (s : Bool) (rel : String) (d : FsEntry)
       (s2 : Bool) (checked : List String) (q : String),
       selHas (ptHandleCheckboxChanges patterns changedSet
           [(.pfile p true, s), (.pfolder rel d, s2)] checked) q
         = if q ∈ (walkDir patterns rel d).filter (fun f => !changedSet.contains f) then s2
           else if q = p then s else selHas checked q) := by
  refine ⟨?_, ?_, ?_⟩
  · intro p fb s fo s2 checked hfo
    cases fo with
    | file p2 b2 => simp [isFolder] at hfo
    | folder l b cs =>
      constructor
      · simp [tvHandleCheckboxChanges, isFolder, setMap]
      · intro q hq
        simp [tvHandleCheckboxChanges, isFolder, setMap, hq]
  · intro fo s2 checked q hfo
    cases fo with
    | file p2 b2 => simp [isFolder] at hfo
    | folder l b cs =>
      simp only [tvHandleCheckboxChanges, tvCascade]
      simp [isFolder, foldl_setMap_const]
  · intro patterns changedSet p s rel d s2 checked q
    simp only [ptHandleCheckboxChanges, isPFolder]
    simp [selHas_foldl_setApply, selHas_setApply]

/-- Witness for the amended C1 at a concrete change-set batch: toggling
`src/a.txt` with the parent folder's derived entry in the same batch
leaves the sibling `src/b.txt` checked. -/
theorem batch_propagation_amended_witness :
    w1Map "src/b.txt" = true ∧
    tvHandleCheckboxChanges [(.file "src/a.txt" true, false), (w1Folder, false)]
        w1Map "src/b.txt" = w1Map "src/b.txt" :=
  ⟨by decide,
   (batch_propagation_amended.1 "src/a.txt" true false w1Folder false w1Map
     (by decide)).2 "src/b.txt" (by decide)⟩

/-- C4. Derived folder selection on both trees.  (1) Every folder node of
the change-set tree produced by `buildFileTree` (under any checked map,
hence after any mutation, since the tree is re-derived from the map on
every render) is Checked iff it has at least one descendant file and
every descendant file's map entry is Checked (all files of that tree are
eligible).  (2) On the project tree, `computeFolderMetadata` reports
Checked iff the folder has at least one eligible (non-locked) descendant
file under the ignore filter and every such file is in the checked set;
in every other case - including "some but not all" and "no eligible
descendants" - it reports Unchecked. -/
theorem folder_state_iff :
    (∀ (files : List ChangedFile) (checked : String → Bool),
       ∀ r ∈ buildFileTree files checked, ∀ d ∈ subNodes r, isFolder d = true →
         (stateOf d = true ↔
           filesOfNode d ≠ [] ∧ ∀ p ∈ filesOfNode d, checked p = true)) ∧
    (∀ patterns changedSet checkedFiles est rel dir,
       ((computeFolderMetadata patterns changedSet checkedFiles est rel dir).1 = true ↔
         ((walkDir patterns rel dir).filter (fun f => !changedSet.contains f) ≠ [] ∧
          ∀ f ∈ (walkDir patterns rel dir).filter (fun f => !changedSet.contains f),
            checkedFiles.contains f = true))) := by
  constructor
  · intro files checked r hr d hd hf
    have hinv := foldl_buildStep_inv checked files ([], []) ⟨by simp, by simp⟩
    simp only [buildFileTree, List.mem_append] at hr
    rcases hr with hr | hr
    · rw [mem_sortByLabel] at hr
      rcases List.mem_map.mp hr with ⟨kv, hkv, rfl⟩
      obtain ⟨hwv, hav, _⟩ := hinv.1 kv hkv
      have hspec := (update_subnodes_pair checked).1 kv.2 hwv hav d hd hf
      rw [hspec]
      simp [List.all_eq_true]
    · rw [mem_sortByLabel] at hr
      have hfr := hinv.2 r hr
      cases r with
      | file p b =>
        simp only [subNodes, List.mem_singleton] at hd
        subst hd
        simp [isFolder] at hf
      | folder l b cs => simp [isFolder] at hfr
  · intro patterns changedSet checkedFiles est rel dir
    simp only [computeFolderMetadata]
    split
    next h =>
      rw [List.isEmpty_iff] at h
      rw [h]
      simp
    next h =>
      have hne : (walkDir patterns rel dir).filter (fun f => !changedSet.contains f) ≠ [] := by
        intro he
        rw [List.isEmpty_iff] at h
        exact h he
      constructor
      · intro hcnt
        exact ⟨hne, List.countP_eq_length.mp (beq_iff_eq.mp hcnt)⟩
      · rintro ⟨_, hall⟩
        exact beq_iff_eq.mpr (List.countP_eq_length.mpr hall)

/-- Witness for C4 at a two-file folder with exactly one file checked:
the derived state is Unchecked and the iff instantiates concretely. -/
theorem folder_state_iff_witness :
    (stateOf w4node = true ↔
      filesOfNode w4node ≠ [] ∧ ∀ p ∈ filesOfNode w4node, w4map p = true) ∧
    stateOf w4node = false :=
  ⟨folder_state_iff.1 w4files w4map w4node (by decide) w4node (by decide) (by decide),
   by decide⟩

/-- C5. The cost a project-tree folder carries
(`computeFolderMetadata`'s second component) is the sum of the per-file
estimates over its non-locked descendant files under the active ignore
filter; locked files are filtered out before summing, and a folder with
no eligible descendant file has cost 0. -/
theorem folder_cost_rollup :
    ∀ patterns changedSet checkedFiles est rel d,
      ((computeFolderMetadata patterns changedSet checkedFiles est rel d).2
        = (((walkDir patterns rel d).filter
              (fun f => !changedSet.contains f)).map est).sum) ∧
      (((walkDir patterns rel d).filter (fun f => !changedSet.contains f)) = [] →
        (computeFolderMetadata patterns changedSet checkedFiles est rel d).2 = 0) := by
  intro patterns changedSet checkedFiles est rel d
  constructor
  · simp only [computeFolderMetadata]
    split
    next h =>
      rw [List.isEmpty_iff] at h
      rw [h]
      rfl
    next h => rfl
  · intro h
    simp only [computeFolderMetadata]
    split
    next => rfl
    next hne => exact absurd (by rw [h]; rfl) hne

/-- Witness for C5: a folder both of whose files are locked has cost 0. -/
theorem folder_cost_rollup_witness :
    ((walkDir [] "lib" w5Dir).filter
        (fun f => !(["lib/c.txt", "lib/d.txt"].contains f)) = []) ∧
    (computeFolderMetadata [] ["lib/c.txt", "lib/d.txt"] [] (fun _ => 7) "lib" w5Dir).2 = 0 :=
  ⟨by decide,
   (folder_cost_rollup [] ["lib/c.txt", "lib/d.txt"] [] (fun _ => 7) "lib" w5Dir).2
     (by decide)⟩

/-- C6 counterexample. After `loadFiles` on `[a.ts, src/b.ts]` (all files
default Checked), `getCheckedFiles` returns the files in the stored
input order `[a.ts, src/b.ts]`, while the hierarchy (display) order of
the built tree puts the folder `src` first, i.e. `[src/b.ts, a.ts]`;
the two orders differ, so `getCheckedFiles` is not in hierarchy order. -/
theorem getCheckedFiles_order_counterexample :
    (getCheckedFiles st6).map ChangedFile.path = ["a.ts", "src/b.ts"] ∧
    flattenNodes (buildFileTree st6.changedFiles st6.checkedFiles) = ["src/b.ts", "a.ts"] ∧
    (getCheckedFiles st6).map ChangedFile.path
      ≠ flattenNodes (buildFileTree st6.changedFiles st6.checkedFiles) :=
  ⟨by decide, by decide, by decide⟩

/-- C6 (amended). `getCheckedFiles` returns exactly the changed files
whose selection is Checked, in the order of the stored changed-file list
(a sublist of it), not in hierarchy order. -/
theorem getCheckedFiles_input_order :
    (∀ st, getCheckedFiles st
       = st.changedFiles.filter (fun file => st.checkedFiles file.path)) ∧
    (∀ st f, f ∈ getCheckedFiles st ↔ f ∈ st.changedFiles ∧ st.checkedFiles f.path = true) ∧
    (∀ st, (getCheckedFiles st).Sublist st.changedFiles) := by
  refine ⟨fun _ => rfl, ?_, fun st => List.filter_sublist _⟩
  intro st f
  simp [getCheckedFiles, List.mem_filter]

/-- C7. `loadFiles` discards prior selection state (the result does not
depend on the prior state at all) and checks every surviving post-filter
file, so `getCheckedFiles` afterwards is exactly the post-filter list;
in particular rebuilding twice with the same input gives the same
`getCheckedFiles` result. -/
theorem loadFiles_rebuild_spec :
    (∀ allFiles patterns prior,
      getCheckedFiles (loadFiles allFiles patterns prior)
        = allFiles.filter (fun file => !isMatch file.path patterns)) ∧
    (∀ allFiles patterns s1 s2,
      loadFiles allFiles patterns s1 = loadFiles allFiles patterns s2) ∧
    (∀ allFiles patterns s,
      getCheckedFiles (loadFiles allFiles patterns (loadFiles allFiles patterns s))
        = getCheckedFiles (loadFiles allFiles patterns s)) := by
  refine ⟨?_, fun _ _ _ _ => rfl, fun _ _ _ => rfl⟩
  intro allFiles patterns prior
  simp only [loadFiles, getCheckedFiles]
  apply List.filter_eq_self.mpr
  intro f hf
  rw [foldl_setMap_true]
  simp only [Bool.false_or, List.any_eq_true]
  exact ⟨f, hf, by simp⟩

/-- C8. On a cache miss, the estimate is `max(1, ceil(len / 4))` of the
retrieved content when that content is nonempty (whether it came from
the file read or from a successful fallback), and `0` when the content
is empty, or the read failed with no fallback, or the fallback itself
failed or returned empty. -/
theorem estimateFromFile_spec :
    ∀ (cache : EstCache) (p : String) (r : Option String) (fb : Option (Option String)),
      cache p = none →
      ((∀ c, r = some c → c ≠ "" →
          (estimateFromFile cache p r fb).1 = max 1 ((c.length + 3) / 4)) ∧
       (r = some "" → (estimateFromFile cache p r fb).1 = 0) ∧
       (r = none → fb = none → (estimateFromFile cache p r fb).1 = 0) ∧
       (r = none → fb = some none → (estimateFromFile cache p r fb).1 = 0) ∧
       (∀ c, r = none → fb = some (some c) → c ≠ "" →
          (estimateFromFile cache p r fb).1 = max 1 ((c.length + 3) / 4)) ∧
       (r = none → fb = some (some "") → (estimateFromFile cache p r fb).1 = 0)) := by
  intro cache p r fb hc
  refine ⟨?_, ?_, ?_, ?_, ?_, ?_⟩ <;> intros <;> subst_vars <;>
    simp [estimateFromFile, estimateTokens, hc, *]

/-- Witness for C8 at a five-character readable file. -/
theorem estimateFromFile_spec_witness :
    ((fun _ => (none : Option Nat)) "a.txt" = none) ∧
    (estimateFromFile (fun _ => none) "a.txt" (some "abcde") none).1
      = max 1 (("abcde".length + 3) / 4) :=
  ⟨rfl,
   (estimateFromFile_spec (fun _ => none) "a.txt" (some "abcde") none rfl).1
     "abcde" rfl (by decide)⟩

/-- C9. An unreadable directory yields an empty `getChildren` listing, an
empty `walkDirectory` result, and is skipped by the recursive walk of
any listing containing it (the walk of the remaining entries is
unchanged); all the embedded functions are total, i.e. the caught
`readdir` error never escapes. -/
theorem unreadable_directory_empty :
    (∀ patterns changedSet checkedFiles est pre n es,
       pGetChildren patterns changedSet checkedFiles est pre (.dir n false es) = []) ∧
    (∀ patterns pre n es, walkDir patterns pre (.dir n false es) = []) ∧
    (∀ patterns pre xs n es ys,
       walkEntries patterns pre (fsAppend xs (.cons (.dir n false es) ys))
         = walkEntries patterns pre (fsAppend xs ys)) := by
  exact ⟨fun _ _ _ _ _ _ _ => rfl, fun _ _ _ _ => rfl,
    fun patterns pre xs n es ys => walkEntries_skip patterns pre n es ys xs⟩

/-- C10. Reloading the ignore configuration replaces only the active
pattern list: the checked set returned by `getCheckedFiles` and the
`getSelectedTokenTotal` sum are unchanged, so a checked path that the
new patterns hide is still returned and still contributes. -/
theorem loadConfig_frame :
    (∀ s raw, ptGetCheckedFiles (loadConfig s raw) = ptGetCheckedFiles s) ∧
    (∀ est s raw, getSelectedTokenTotal est (loadConfig s raw) = getSelectedTokenTotal est s) ∧
    (∀ s raw p, p ∈ s.checkedFiles → isMatch p (normalizePatterns raw) = true →
       p ∈ ptGetCheckedFiles (loadConfig s raw) ∧
       (loadConfig s raw).activeIgnorePatterns = normalizePatterns raw) := by
  refine ⟨fun _ _ => rfl, fun _ _ _ => rfl, ?_⟩
  intro s raw p hp _
  exact ⟨hp, rfl⟩

/-- Witness for C10: `out/main.js` stays checked although the freshly
loaded pattern `out` hides it. -/
theorem loadConfig_frame_witness :
    "out/main.js" ∈ w10State.checkedFiles ∧
    isMatch "out/main.js" (normalizePatterns (.arr ["out"])) = true ∧
    "out/main.js" ∈ ptGetCheckedFiles (loadConfig w10State (.arr ["out"])) :=
  ⟨by decide, by decide,
   (loadConfig_frame.2.2 w10State (.arr ["out"]) "out/main.js" (by decide) (by decide)).1⟩

end AiReview
